import Mathlib

/-!
Verification of the Dust package-usage tracker core (src/dust_tracker.py).

The tracker keeps two SQLite tables (`init_db`): `packages`, keyed by
package name, and an append-only `usage_events` log.  `scan_installed_packages`
parses pacman output and upserts every record through `_save_package`;
`scan_running_processes` resolves running executables to owning packages and
stamps `last_seen`; `get_package_stats` derives a days-unused figure, a dust
percentage, a safety class, and three aggregate counts.

Modelling conventions:
* the `last_seen` TEXT column holds either an ISO timestamp or the legacy
  text `Never`; time is modelled at whole-day granularity, so a timestamp is
  its integer SQLite julian-day value and the SQL
  `CAST(julianday(a) - julianday(b) AS INTEGER)` of a day difference is the
  difference itself, while `julianday` of the unparseable `Never` text is
  NULL;
* Python float arithmetic in `dust_percentage` is modelled exactly over the
  rationals;
* SQL rows are Lean structures, a table is the list of its rows, and the
  WHERE filters of the aggregate counts keep SQLite three-valued logic: a
  comparison against a NULL `julianday` is NULL and does not count.
-/

namespace Dust

/-- Value of the `last_seen` column: a real timestamp (by its integer
julian-day value) or the legacy `Never` text still handled by
`get_package_stats`. -/
inductive LastSeen where
  | never : LastSeen
  | seen (j : ℤ) : LastSeen
  deriving DecidableEq, Repr

/-- Row of the `packages` table (schema in `init_db`). -/
structure Package where
  name : String
  description : String
  install_date : String
  explicit_install : Bool
  last_seen : LastSeen
  deriving DecidableEq, Repr

/-- Row of the `usage_events` table; the AUTOINCREMENT id is implicit in the
list position. -/
structure UsageEvent where
  package_name : String
  event_type : String
  timestamp : ℤ
  deriving DecidableEq, Repr

/-- Database state: the two tables created by `init_db`. -/
structure Store where
  packages : List Package
  usage_events : List UsageEvent
  deriving DecidableEq, Repr

/-- Record built by the parsing loop of `scan_installed_packages`: the dict
always holds `name`; `description` and `install_date` are present only when
the corresponding pacman output line occurred. -/
structure PkgInfo where
  name : String
  description : Option String
  install_date : Option String
  deriving DecidableEq, Repr

/-- SELECT of the single row keyed `name` (the table's primary key). -/
def findPkg (s : Store) (n : String) : Option Package :=
  s.packages.find? (fun p => p.name == n)

/-- Semantics of SQLite `julianday` on the stored `last_seen` text: a real
timestamp has its julian-day value, the unparseable `Never` text gives
NULL. -/
def julianday : LastSeen → Option ℤ
  | LastSeen.never => none
  | LastSeen.seen j => some j

/-- INSERT OR REPLACE keyed on the `name` primary key: any conflicting row
is removed and the fresh row inserted. -/
def replaceRow (ps : List Package) (p : Package) : List Package :=
  ps.filter (fun q => !(q.name == p.name)) ++ [p]

/-- Model of `_save_package`: INSERT OR REPLACE of the parsed record with
`last_seen = COALESCE((SELECT last_seen FROM packages WHERE name = ?), now)`,
i.e. the stored `last_seen` when the row already exists (no code path ever
stores NULL there), else `now`.  A missing dict field defaults to the empty
string via `pkg_info.get(..., '')` in the source. -/
def savePackage (s : Store) (info : PkgInfo) (isExplicit : Bool) (now : ℤ) : Store :=
  let ls := match findPkg s info.name with
    | some p => p.last_seen
    | none => LastSeen.seen now
  let row : Package :=
    { name := info.name
      description := info.description.getD ""
      install_date := info.install_date.getD ""
      explicit_install := isExplicit
      last_seen := ls }
  { s with packages := replaceRow s.packages row }

/-- Loop of `scan_installed_packages` after both pacman queries succeeded:
every parsed record is saved with `explicit_install` true exactly when its
name is in the explicit set. -/
def reconcile (s : Store) (inventory : List PkgInfo) (explicitSet : List String)
    (now : ℤ) : Store :=
  inventory.foldl (fun st info => savePackage st info (explicitSet.contains info.name) now) s

/-- Model of `scan_installed_packages` with its failure path: when a pacman
query raises `CalledProcessError` the function returns False before touching
the database; otherwise it reconciles the parsed inventory and returns
True. -/
def scanInstalledPackages (s : Store) (inv : Option (List PkgInfo × List String))
    (now : ℤ) : Store × Bool :=
  match inv with
  | none => (s, false)
  | some (inventory, explicitSet) => (reconcile s inventory explicitSet now, true)

/-- Body of the per-process loop of `scan_running_processes` for a path that
`pacman -Qo` resolved to package `n`: the UPDATE stamps `last_seen` on the
row named `n` (a no-op when no such row exists) and the INSERT appends the
usage event unconditionally (foreign keys are not enforced by the
connection). -/
def touchAndRecord (s : Store) (n : String) (now : ℤ) : Store :=
  { packages := s.packages.map
      (fun p => if p.name == n then { p with last_seen := LastSeen.seen now } else p)
    usage_events := s.usage_events ++
      [{ package_name := n, event_type := "process_scan", timestamp := now }] }

/-- Loop of `scan_running_processes` over the enumerated process paths: a
resolution result is `some n` when `pacman -Qo` named owning package `n`,
and `none` when the lookup failed (skipped by `continue`). -/
def correlate (s : Store) (resolutions : List (Option String)) (now : ℤ) : Store :=
  resolutions.foldl
    (fun st r =>
      match r with
      | none => st
      | some n => touchAndRecord st n now) s

/-- Model of `scan_running_processes` with its failure path: if the process
set cannot be enumerated at all, the outer handler returns False with the
database untouched; otherwise the loop runs and True is returned. -/
def scanRunningProcesses (s : Store) (procs : Option (List (Option String)))
    (now : ℤ) : Store × Bool :=
  match procs with
  | none => (s, false)
  | some rs => (correlate s rs now, true)

/-- Model of the `/api/scan` branch of `do_GET` (and of `--scan-only` in
`main`): both scans run in sequence, the second on the state the first left,
and the reported success is the conjunction of the two phase results. -/
def runScanCycle (s : Store) (inv : Option (List PkgInfo × List String))
    (procs : Option (List (Option String))) (now : ℤ) : Store × Bool :=
  let r1 := scanInstalledPackages s inv now
  let r2 := scanRunningProcesses r1.1 procs now
  (r2.1, r1.2 && r2.2)

/-- Derived `days_unused` column of the first SELECT of `get_package_stats`:
999 for the `Never` sentinel, else the whole-day difference between now and
`last_seen`. -/
def daysUnused (now : ℤ) : LastSeen → ℤ
  | LastSeen.never => 999
  | LastSeen.seen j => now - j

/-- Python `min(row[5], 365)`: the day count capped at 365 for scoring. -/
def dustLevel (d : ℤ) : ℤ := min d 365

/-- Python `min((dust_level / 30.0) * 100, 100)` in exact arithmetic. -/
def dustPercentage (d : ℤ) : ℚ := min (((dustLevel d : ℤ) : ℚ) / 30 * 100) 100

/-- Python `'safe' if row[3] and row[5] > 30 else 'risky'`. -/
def safetyOf (explicitInstall : Bool) (d : ℤ) : String :=
  if explicitInstall = true ∧ 30 < d then "safe" else "risky"

/-- Entry of the `packages` array assembled by `get_package_stats`. -/
structure PackageStat where
  name : String
  description : String
  install_date : String
  explicit_install : Bool
  last_seen : LastSeen
  days_unused : ℤ
  dust_percentage : ℚ
  safety : String
  deriving DecidableEq, Repr

/-- Fields derived from one row by the loop of `get_package_stats`. -/
def packageStat (now : ℤ) (p : Package) : PackageStat :=
  let d := daysUnused now p.last_seen
  { name := p.name
    description := p.description
    install_date := p.install_date
    explicit_install := p.explicit_install
    last_seen := p.last_seen
    days_unused := d
    dust_percentage := dustPercentage d
    safety := safetyOf p.explicit_install d }

/-- SQLite BINARY collation on TEXT, i.e. byte-wise comparison, modelled on
the code-point sequences of the two strings (they order identically to the
UTF-8 bytes). -/
def textLT : List Char → List Char → Bool
  | [], [] => false
  | [], _ :: _ => true
  | _ :: _, [] => false
  | a :: as, b :: bs =>
    if a.toNat < b.toNat then true
    else if b.toNat < a.toNat then false
    else textLT as bs

/-- Ascending text order used by ORDER BY on the `name` column. -/
def textLE (a b : String) : Bool := !(textLT b.data a.data)

/-- ORDER BY `days_unused DESC, name`: row `p` may precede row `q` when its
derived day count is larger, or the counts tie and `p.name` is not after
`q.name` in ascending text order. -/
def rowLE (now : ℤ) (p q : Package) : Bool :=
  if daysUnused now p.last_seen = daysUnused now q.last_seen
  then textLE p.name q.name
  else decide (daysUnused now q.last_seen < daysUnused now p.last_seen)

/-- Rows of the first SELECT of `get_package_stats`, in its ORDER BY
order (any sorting algorithm models the SQL ordering; a structural
insertion sort keeps the model executable). -/
def listPackages (s : Store) (now : ℤ) : List PackageStat :=
  (List.insertionSort (fun p q => rowLE now p q = true) s.packages).map (packageStat now)

/-- Ordering contract on the produced entries: descending `days_unused`,
ties broken by ascending `name`. -/
def statLE (a b : PackageStat) : Prop :=
  b.days_unused < a.days_unused ∨
    (a.days_unused = b.days_unused ∧ textLE a.name b.name = true)

/-- WHERE clause of the `unused_week` count:
`CAST((julianday(now) - julianday(last_seen)) AS INTEGER) > 7`, with SQLite
three-valued logic: when `julianday(last_seen)` is NULL the comparison is
NULL and the row is not counted. -/
def unusedWeekPred (now : ℤ) (p : Package) : Bool :=
  match julianday p.last_seen with
  | none => false
  | some j => decide (7 < now - j)

/-- The `unused_week` aggregate of `get_package_stats`. -/
def unusedWeek (s : Store) (now : ℤ) : ℕ :=
  (s.packages.filter (unusedWeekPred now)).length

/-- WHERE clause of the `dusty_explicit` count: `explicit_install = 1 AND
CAST(... AS INTEGER) > 30 AND last_seen != 'Never'`, with the same NULL
semantics for the day comparison. -/
def dustyExplicitPred (now : ℤ) (p : Package) : Bool :=
  p.explicit_install &&
    (match julianday p.last_seen with
     | none => false
     | some j => decide (30 < now - j)) &&
    decide (p.last_seen ≠ LastSeen.never)

/-- The `dusty_explicit` aggregate of `get_package_stats`. -/
def dustyExplicit (s : Store) (now : ℤ) : ℕ :=
  (s.packages.filter (dustyExplicitPred now)).length

/-- Summary block of `get_package_stats`. -/
structure Stats where
  total : ℕ
  unused_week : ℕ
  dusty_explicit : ℕ
  deriving DecidableEq, Repr

/-- Full return value of `get_package_stats`. -/
structure StatsResponse where
  packages : List PackageStat
  stats : Stats
  deriving DecidableEq, Repr

/-- Model of `get_package_stats`. -/
def getPackageStats (s : Store) (now : ℤ) : StatsResponse :=
  { packages := listPackages s now
    stats :=
      { total := s.packages.length
        unused_week := unusedWeek s now
        dusty_explicit := dustyExplicit s now } }

/-- Number of `process_scan` usage-event rows stored for package `n`. -/
def eventsFor (s : Store) (n : String) : ℕ :=
  (s.usage_events.filter
    (fun e => e.package_name == n && e.event_type == "process_scan")).length

/-- Store with no rows at all, as right after `init_db` on a fresh file. -/
def emptyStore : Store := { packages := [], usage_events := [] }

/-- Row stored by `savePackage`, spelled out. -/
def savedRow (s : Store) (info : PkgInfo) (isExplicit : Bool) (now : ℤ) : Package :=
  { name := info.name
    description := info.description.getD ""
    install_date := info.install_date.getD ""
    explicit_install := isExplicit
    last_seen :=
      match findPkg s info.name with
      | some p => p.last_seen
      | none => LastSeen.seen now }

/-- Single reconciled package used in concrete scenarios. -/
def fooPkg : Package :=
  { name := "foo"
    description := "demo"
    install_date := "2024-01-01"
    explicit_install := true
    last_seen := LastSeen.seen 0 }

/-- Dependency-installed package used in concrete scenarios. -/
def depPkg : Package :=
  { name := "dep"
    description := ""
    install_date := ""
    explicit_install := false
    last_seen := LastSeen.seen 0 }

/-- Store holding only `fooPkg`. -/
def fooStore : Store := { packages := [fooPkg], usage_events := [] }

/-- Explicitly installed package whose `last_seen` is the `Never` text. -/
def ghostPkg : Package :=
  { name := "ghost"
    description := ""
    install_date := ""
    explicit_install := true
    last_seen := LastSeen.never }

/-- Store holding only `ghostPkg`. -/
def ghostStore : Store := { packages := [ghostPkg], usage_events := [] }

/-- Three packages named A, B, C last seen 10, 10 and 5 days before time
100, listed out of order. -/
def demoStore : Store :=
  { packages :=
      [{ name := "B", description := "", install_date := "",
         explicit_install := true, last_seen := LastSeen.seen 90 },
       { name := "C", description := "", install_date := "",
         explicit_install := false, last_seen := LastSeen.seen 95 },
       { name := "A", description := "", install_date := "",
         explicit_install := true, last_seen := LastSeen.seen 90 }]
    usage_events := [] }

/-- Store used by the reconcile frame witness: one package named keep. -/
def keepStore : Store :=
  { packages :=
      [{ name := "keep", description := "kept", install_date := "2024-01-01",
         explicit_install := true, last_seen := LastSeen.seen 3 }]
    usage_events := [] }

/-- Inventory record naming a package other than keep. -/
def otherInfo : PkgInfo :=
  { name := "other", description := some "o", install_date := none }

/-! ## Helper lemmas about the store primitives -/

theorem find?_filter_of_imp {α : Type} (p q : α → Bool) (l : List α)
    (h : ∀ x, p x = true → q x = true) :
    (l.filter q).find? p = l.find? p := by
  induction l with
  | nil => rfl
  | cons a t ih =>
    cases hq : q a with
    | true =>
      rw [List.filter_cons_of_pos hq]
      cases hp : p a with
      | true => rw [List.find?_cons_of_pos _ hp, List.find?_cons_of_pos _ hp]
      | false =>
        rw [List.find?_cons_of_neg _ (by simp [hp]), List.find?_cons_of_neg _ (by simp [hp]), ih]
    | false =>
      have hp : p a = false := by
        cases hpa : p a with
        | true => rw [h a hpa] at hq; exact absurd hq (by simp)
        | false => rfl
      rw [List.filter_cons_of_neg (by simp [hq]), List.find?_cons_of_neg _ (by simp [hp]), ih]

theorem findPkg_replaceRow_self (ps : List Package) (p : Package) :
    (replaceRow ps p).find? (fun q => q.name == p.name) = some p := by
  unfold replaceRow
  rw [List.find?_append]
  have h1 : (ps.filter (fun q => !(q.name == p.name))).find?
      (fun q => q.name == p.name) = none := by
    rw [List.find?_eq_none]
    intro x hx
    have hq := List.of_mem_filter hx
    simp only [Bool.not_eq_true'] at hq
    simp [hq]
  rw [h1]
  simp [List.find?]

theorem findPkg_replaceRow_other (ps : List Package) (p : Package) (m : String)
    (hm : m ≠ p.name) :
    (replaceRow ps p).find? (fun q => q.name == m) = ps.find? (fun q => q.name == m) := by
  unfold replaceRow
  rw [List.find?_append]
  have h2 : ([p].find? (fun q => q.name == m)) = none := by
    rw [List.find?_eq_none]
    intro x hx
    simp only [List.mem_singleton] at hx
    subst hx
    simp [Ne.symm hm]
  have h1 : (ps.filter (fun q => !(q.name == p.name))).find? (fun q => q.name == m)
      = ps.find? (fun q => q.name == m) := by
    apply find?_filter_of_imp
    intro x hx
    have hxm : x.name = m := by simpa using hx
    simpa [hxm] using hm
  rw [h1, h2]
  cases ps.find? (fun q => q.name == m) <;> rfl

theorem findPkg_savePackage_self (s : Store) (info : PkgInfo) (e : Bool) (now : ℤ) :
    findPkg (savePackage s info e now) info.name = some (savedRow s info e now) := by
  unfold findPkg savePackage
  show List.find? (fun q => q.name == info.name)
      (replaceRow s.packages (savedRow s info e now)) = some (savedRow s info e now)
  have h := findPkg_replaceRow_self s.packages (savedRow s info e now)
  have hn : (savedRow s info e now).name = info.name := rfl
  rw [hn] at h
  exact h

theorem findPkg_savePackage_other (s : Store) (info : PkgInfo) (e : Bool) (now : ℤ)
    (m : String) (hm : m ≠ info.name) :
    findPkg (savePackage s info e now) m = findPkg s m := by
  unfold findPkg savePackage
  exact findPkg_replaceRow_other s.packages _ m hm

theorem findPkg_savePackage_isSome (s : Store) (info : PkgInfo) (e : Bool) (now : ℤ)
    (m : String) (hs : (findPkg s m).isSome = true) :
    (findPkg (savePackage s info e now) m).isSome = true := by
  by_cases hm : m = info.name
  · subst hm
    rw [findPkg_savePackage_self]
    rfl
  · rw [findPkg_savePackage_other s info e now m hm]
    exact hs

theorem findPkg_reconcile_not_named (s : Store) (inventory : List PkgInfo)
    (es : List String) (now : ℤ) (n : String)
    (h : ∀ info ∈ inventory, info.name ≠ n) :
    findPkg (reconcile s inventory es now) n = findPkg s n := by
  induction inventory generalizing s with
  | nil => rfl
  | cons info t ih =>
    have hstep : reconcile s (info :: t) es now
        = reconcile (savePackage s info (es.contains info.name) now) t es now := rfl
    rw [hstep, ih _ (fun i hi => h i (List.mem_cons_of_mem _ hi))]
    exact findPkg_savePackage_other s info _ now n
      (fun hn => h info (List.mem_cons_self _ _) hn.symm)

theorem findPkg_reconcile_isSome (s : Store) (inventory : List PkgInfo)
    (es : List String) (now : ℤ) (m : String)
    (hs : (findPkg s m).isSome = true) :
    (findPkg (reconcile s inventory es now) m).isSome = true := by
  induction inventory generalizing s with
  | nil => exact hs
  | cons info t ih =>
    exact ih _ (findPkg_savePackage_isSome s info _ now m hs)

theorem eventsFor_touchAndRecord (s : Store) (m n : String) (now : ℤ) :
    eventsFor (touchAndRecord s m now) n
      = eventsFor s n + (if m == n then 1 else 0) := by
  unfold eventsFor touchAndRecord
  rw [List.filter_append, List.length_append]
  cases hmn : (m == n) with
  | true => simp [hmn]
  | false => simp [hmn]

theorem filter_filter_of_imp {α : Type} (p q : α → Bool) (l : List α)
    (h : ∀ x, p x = true → q x = true) :
    (l.filter q).filter p = l.filter p := by
  induction l with
  | nil => rfl
  | cons a t ih =>
    cases hq : q a with
    | true =>
      rw [List.filter_cons_of_pos hq]
      cases hp : p a with
      | true => rw [List.filter_cons_of_pos hp, List.filter_cons_of_pos hp, ih]
      | false =>
        rw [List.filter_cons_of_neg (by simp [hp]), List.filter_cons_of_neg (by simp [hp]), ih]
    | false =>
      have hp : p a = false := by
        cases hpa : p a with
        | true => rw [h a hpa] at hq; exact absurd hq (by simp)
        | false => rfl
      rw [List.filter_cons_of_neg (by simp [hq]), List.filter_cons_of_neg (by simp [hp]), ih]

/-! ## Properties of the text collation -/

theorem textLT_asymm : ∀ x y : List Char, textLT x y = true → textLT y x = false
  | [], [] => by simp [textLT]
  | [], _ :: _ => by simp [textLT]
  | _ :: _, [] => by simp [textLT]
  | a :: as, b :: bs => by
    simp only [textLT]
    by_cases h1 : a.toNat < b.toNat
    · intro _
      rw [if_neg (by omega), if_pos (by omega)]
    · rw [if_neg h1]
      by_cases h2 : b.toNat < a.toNat
      · simp [h2]
      · rw [if_neg h2, if_neg h2, if_neg h1]
        exact textLT_asymm as bs

theorem textLT_trans : ∀ x y z : List Char,
    textLT x y = true → textLT y z = true → textLT x z = true
  | [], [], _ => by simp [textLT]
  | [], _ :: _, [] => by simp [textLT]
  | [], _ :: _, _ :: _ => by simp [textLT]
  | _ :: _, [], _ => by simp [textLT]
  | _ :: _, _ :: _, [] => by simp [textLT]
  | a :: as, b :: bs, c :: cs => by
    simp only [textLT]
    by_cases hab : a.toNat < b.toNat <;> by_cases hbc : b.toNat < c.toNat
    · intro _ _
      rw [if_pos (by omega)]
    · rw [if_neg hbc]
      by_cases hcb : c.toNat < b.toNat
      · simp [hcb]
      · rw [if_neg hcb]
        intro _ _
        rw [if_pos (by omega)]
    · rw [if_neg hab]
      by_cases hba : b.toNat < a.toNat
      · simp [hba]
      · rw [if_neg hba]
        intro _ _
        rw [if_pos (by omega)]
    · rw [if_neg hab, if_neg hbc]
      by_cases hba : b.toNat < a.toNat
      · simp [hba]
      · by_cases hcb : c.toNat < b.toNat
        · simp [hcb]
        · rw [if_neg hba, if_neg hcb, if_neg (by omega), if_neg (by omega)]
          exact textLT_trans as bs cs

theorem textLT_conn : ∀ x y : List Char,
    textLT x y = false → textLT y x = false → x = y
  | [], [] => by intro _ _; rfl
  | [], _ :: _ => by simp [textLT]
  | _ :: _, [] => by simp [textLT]
  | a :: as, b :: bs => by
    simp only [textLT]
    by_cases hab : a.toNat < b.toNat
    · simp [hab]
    · by_cases hba : b.toNat < a.toNat
      · simp [hba]
      · rw [if_neg hab, if_neg hba, if_neg hba, if_neg hab]
        intro h1 h2
        have hv : a = b := by
          have : a.toNat = b.toNat := by omega
          unfold Char.toNat at this
          exact Char.eq_of_val_eq (UInt32.toNat.inj this)
        rw [hv, textLT_conn as bs h1 h2]

theorem textLE_total (a b : String) : textLE a b = true ∨ textLE b a = true := by
  unfold textLE
  cases h : textLT b.data a.data with
  | false => left; rfl
  | true => right; rw [textLT_asymm _ _ h]; rfl

theorem textLE_trans (a b c : String) (h1 : textLE a b = true) (h2 : textLE b c = true) :
    textLE a c = true := by
  unfold textLE at h1 h2 ⊢
  simp only [Bool.not_eq_true'] at h1 h2 ⊢
  cases hca : textLT c.data a.data with
  | false => rfl
  | true =>
    exfalso
    cases hab : textLT a.data b.data with
    | true => rw [textLT_trans _ _ _ hca hab] at h2; exact Bool.noConfusion h2
    | false =>
      have : a.data = b.data := textLT_conn _ _ hab h1
      rw [← this] at h2
      rw [hca] at h2
      exact Bool.noConfusion h2

/-! ## Properties of the ORDER BY comparison -/

theorem rowLE_total (now : ℤ) (p q : Package) :
    rowLE now p q = true ∨ rowLE now q p = true := by
  unfold rowLE
  by_cases hd : daysUnused now p.last_seen = daysUnused now q.last_seen
  · rw [if_pos hd, if_pos hd.symm]
    exact textLE_total p.name q.name
  · rw [if_neg hd, if_neg (fun h => hd h.symm)]
    rcases Int.lt_or_lt_of_ne hd with h | h
    · right; exact decide_eq_true h
    · left; exact decide_eq_true h

theorem rowLE_trans (now : ℤ) (p q r : Package)
    (h1 : rowLE now p q = true) (h2 : rowLE now q r = true) :
    rowLE now p r = true := by
  unfold rowLE at h1 h2 ⊢
  by_cases hpq : daysUnused now p.last_seen = daysUnused now q.last_seen <;>
    by_cases hqr : daysUnused now q.last_seen = daysUnused now r.last_seen
  · rw [if_pos hpq] at h1
    rw [if_pos hqr] at h2
    rw [if_pos (hpq.trans hqr)]
    exact textLE_trans _ _ _ h1 h2
  · rw [if_neg hqr] at h2
    have hlt := of_decide_eq_true h2
    rw [if_neg (by omega)]
    exact decide_eq_true (by omega)
  · rw [if_neg hpq] at h1
    have hlt := of_decide_eq_true h1
    rw [if_neg (by omega)]
    exact decide_eq_true (by omega)
  · rw [if_neg hpq] at h1
    rw [if_neg hqr] at h2
    have hl1 := of_decide_eq_true h1
    have hl2 := of_decide_eq_true h2
    rw [if_neg (by omega)]
    exact decide_eq_true (by omega)

theorem touch_packages_of_absent (l : List Package) (n : String) (now : ℤ)
    (hall : ∀ p ∈ l, (p.name == n) = false) :
    l.map (fun p => if p.name == n then { p with last_seen := LastSeen.seen now } else p)
      = l := by
  induction l with
  | nil => rfl
  | cons a t ih =>
    rw [List.map_cons, if_neg (by simp [hall a (List.mem_cons_self a t)]),
      ih (fun p hp => hall p (List.mem_cons_of_mem a hp))]

/-! ## The claims -/

/-- C1: for a package already present in the store, the reconcile upsert of
`_save_package` updates description, install date and the explicit flag but
keeps the stored last-seen value; for a package not yet present it creates
the record with last seen set to the current time, never to the `Never`
sentinel. -/
theorem upsert_preserves_lastSeen (s : Store) (info : PkgInfo) (e : Bool) (now : ℤ) :
    findPkg (savePackage s info e now) info.name =
      some { name := info.name
             description := info.description.getD ""
             install_date := info.install_date.getD ""
             explicit_install := e
             last_seen :=
               match findPkg s info.name with
               | some p => p.last_seen
               | none => LastSeen.seen now } :=
  findPkg_savePackage_self s info e now

/-- C10: an inventory record whose parsed fields lack the description or the
install date is still upserted, storing the empty string for the missing
field; a missing metadata field neither aborts the reconcile nor skips the
package. -/
theorem missing_fields_default_empty (s : Store) (n : String) (d : Option String)
    (e : Bool) (now : ℤ) :
    ((findPkg (savePackage s { name := n, description := none, install_date := d } e now) n).map
        (fun p => p.description) = some "") ∧
    ((findPkg (savePackage s { name := n, description := d, install_date := none } e now) n).map
        (fun p => p.install_date) = some "") := by
  have h1 := findPkg_savePackage_self s
    { name := n, description := none, install_date := d } e now
  have h2 := findPkg_savePackage_self s
    { name := n, description := d, install_date := none } e now
  constructor
  · rw [h1]; rfl
  · rw [h2]; rfl

/-- C9: reconciling an inventory snapshot never removes a package record:
every stored package stays present, and one whose name is absent from the
snapshot keeps all its fields unchanged. -/
theorem reconcile_never_deletes (s : Store) (inventory : List PkgInfo)
    (es : List String) (now : ℤ) (n : String)
    (h : ∀ info ∈ inventory, info.name ≠ n) :
    findPkg (reconcile s inventory es now) n = findPkg s n ∧
    (∀ m, (findPkg s m).isSome = true →
      (findPkg (reconcile s inventory es now) m).isSome = true) :=
  ⟨findPkg_reconcile_not_named s inventory es now n h,
   fun m hm => findPkg_reconcile_isSome s inventory es now m hm⟩

/-- C9 witness: a concrete store with one package named keep and a snapshot
that omits it. -/
theorem reconcile_never_deletes_witness :
    findPkg (reconcile keepStore [otherInfo] ["other"] 9) "keep" = findPkg keepStore "keep" ∧
    (∀ m, (findPkg keepStore m).isSome = true →
      (findPkg (reconcile keepStore [otherInfo] ["other"] 9) m).isSome = true) :=
  reconcile_never_deletes keepStore [otherInfo] ["other"] 9 "keep" (by decide)

/-- C4 counterexample: correlating a path resolved to the unknown package
name bar on an empty store leaves the package table unchanged but appends
one usage event, instead of dropping the event as the claim states. -/
theorem unknown_package_event_recorded_cex :
    (correlate emptyStore [some "bar"] 0).packages = [] ∧
    (correlate emptyStore [some "bar"] 0).usage_events.length = 1 ∧
    ¬ (correlate emptyStore [some "bar"] 0).usage_events.length = 0 := by
  decide

/-- C4 (amended): when a resolved process path names a package missing from
the store, the UPDATE touches no package record and no error is raised, but
the usage event is still appended: the INSERT does not check package
existence and foreign keys are not enforced. -/
theorem touch_unknown_package (s : Store) (n : String) (now : ℤ)
    (h : findPkg s n = none) :
    (touchAndRecord s n now).packages = s.packages ∧
    (touchAndRecord s n now).usage_events = s.usage_events ++
      [{ package_name := n, event_type := "process_scan", timestamp := now }] := by
  constructor
  · show s.packages.map _ = s.packages
    apply touch_packages_of_absent
    intro p hp
    have := List.find?_eq_none.mp h p hp
    simpa using this
  · rfl

/-- C4 witness: the empty store does not contain bar. -/
theorem touch_unknown_package_witness :
    (touchAndRecord emptyStore "bar" 0).packages = emptyStore.packages ∧
    (touchAndRecord emptyStore "bar" 0).usage_events = emptyStore.usage_events ++
      [{ package_name := "bar", event_type := "process_scan", timestamp := 0 }] :=
  touch_unknown_package emptyStore "bar" 0 (by decide)

/-- C2 counterexample: two running-process paths resolving to the same
stored package foo yield two process-scan event rows in one correlate pass,
not exactly one. -/
theorem duplicate_process_events_cex :
    eventsFor (correlate fooStore [some "foo", some "foo"] 5) "foo" = 2 ∧
    ¬ eventsFor (correlate fooStore [some "foo", some "foo"] 5) "foo" = 1 := by
  decide

/-- C2 (amended): one correlate pass appends one process-scan event row per
resolved process path, so a package to which k concurrently running paths
resolve gains k rows, not one: the loop has no per-package deduplication. -/
theorem correlate_event_count (s : Store) (rs : List (Option String)) (now : ℤ)
    (n : String) :
    eventsFor (correlate s rs now) n
      = eventsFor s n + rs.countP (fun r => r == some n) := by
  induction rs generalizing s with
  | nil => rfl
  | cons r t ih =>
    cases r with
    | none =>
      have hstep : correlate s (none :: t) now = correlate s t now := rfl
      rw [hstep, ih, List.countP_cons]
      simp
    | some m =>
      have hstep : correlate s (some m :: t) now
          = correlate (touchAndRecord s m now) t now := rfl
      have hbeq : ((some m == some n) : Bool) = (m == n) := rfl
      rw [hstep, ih, eventsFor_touchAndRecord, List.countP_cons, hbeq]
      cases hmn : (m == n) with
      | true => simp [hmn]; omega
      | false => simp [hmn]

/-- C3 counterexample: an explicitly installed package whose last-seen value
is the Never sentinel is not counted in unusedWeek (the count is 0, not 1),
and also not in dustyExplicit. -/
theorem never_sentinel_counts_cex :
    unusedWeek ghostStore 1000 = 0 ∧ ¬ unusedWeek ghostStore 1000 = 1 ∧
    dustyExplicit ghostStore 1000 = 0 := by
  decide

/-- C3 (amended): a package with the Never sentinel is excluded from both
aggregates, not only from dustyExplicit: the unusedWeek count recomputes
the day difference from julianday of the stored text, which is NULL for the
sentinel, so its comparison fails; the 999 sentinel day count feeds only the
per-package listing, never the aggregate counts. -/
theorem never_sentinel_excluded (s : Store) (now : ℤ) :
    (∀ p : Package, p.last_seen = LastSeen.never →
      unusedWeekPred now p = false ∧ dustyExplicitPred now p = false) ∧
    unusedWeek s now = ((s.packages.filter
      (fun p => !(p.last_seen == LastSeen.never))).filter (unusedWeekPred now)).length ∧
    dustyExplicit s now = ((s.packages.filter
      (fun p => !(p.last_seen == LastSeen.never))).filter (dustyExplicitPred now)).length := by
  refine ⟨?_, ?_, ?_⟩
  · intro p hp
    constructor
    · unfold unusedWeekPred
      rw [hp]
      rfl
    · simp [dustyExplicitPred, hp, julianday]
  · unfold unusedWeek
    rw [filter_filter_of_imp]
    intro x hx
    unfold unusedWeekPred at hx
    cases hls : x.last_seen with
    | never => rw [hls] at hx; exact absurd hx (by simp [julianday])
    | seen j => simp [hls]
  · unfold dustyExplicit
    rw [filter_filter_of_imp]
    intro x hx
    unfold dustyExplicitPred at hx
    have hc := (Bool.and_eq_true_iff.mp hx).2
    have hne : x.last_seen ≠ LastSeen.never := of_decide_eq_true hc
    simp [hne]

/-- C5: the dust percentage equals min(min(daysUnused, 365) / 30 * 100, 100)
while the reported daysUnused stays the raw unclamped value; 15 days give
50, 30 days give 100, and 400 days give 100 with daysUnused still 400. -/
theorem dust_percentage_formula (p : Package) (now : ℤ) :
    (packageStat now p).dust_percentage
        = min (((min (packageStat now p).days_unused 365 : ℤ) : ℚ) / 30 * 100) 100 ∧
    (packageStat now p).days_unused = daysUnused now p.last_seen ∧
    dustPercentage 15 = 50 ∧ dustPercentage 30 = 100 ∧ dustPercentage 400 = 100 ∧
    (packageStat 400 fooPkg).days_unused = 400 ∧
    (packageStat 400 fooPkg).dust_percentage = 100 := by
  refine ⟨rfl, rfl, ?_, ?_, ?_, by decide, ?_⟩ <;>
    norm_num [dustPercentage, dustLevel, packageStat, daysUnused, fooPkg, min_def]

/-- C6: the safety field is safe exactly when the package is explicitly
installed and its daysUnused exceeds 30; in every other case it is risky —
a dependency package is risky at any staleness and an explicit one at 29 or
30 days is risky. -/
theorem safety_classification (p : Package) (now : ℤ) :
    ((packageStat now p).safety = "safe" ↔
      p.explicit_install = true ∧ 30 < (packageStat now p).days_unused) ∧
    ((packageStat now p).safety = "safe" ∨ (packageStat now p).safety = "risky") ∧
    (packageStat 31 fooPkg).safety = "safe" ∧
    (packageStat 29 fooPkg).safety = "risky" ∧
    (packageStat 30 fooPkg).safety = "risky" ∧
    (packageStat 400 depPkg).safety = "risky" := by
  have hiff : ∀ (e : Bool) (d : ℤ), safetyOf e d = "safe" ↔ e = true ∧ 30 < d := by
    intro e d
    unfold safetyOf
    by_cases h : e = true ∧ 30 < d
    · rw [if_pos h]
      exact iff_of_true rfl h
    · rw [if_neg h]
      exact iff_of_false (by decide) h
  refine ⟨hiff p.explicit_install _, ?_, by decide, by decide, by decide, by decide⟩
  show safetyOf p.explicit_install (daysUnused now p.last_seen) = "safe" ∨
    safetyOf p.explicit_install (daysUnused now p.last_seen) = "risky"
  unfold safetyOf
  exact ite_eq_or_eq _ _ _

/-- C7: listPackages returns the full package set sorted by descending
daysUnused with ties broken by ascending name; on packages A and B unused
10 days and C unused 5 days the produced order is A, B, C. -/
theorem list_packages_ordering (s : Store) (now : ℤ) :
    (listPackages s now).Perm (s.packages.map (packageStat now)) ∧
    (listPackages s now).Sorted statLE ∧
    (listPackages demoStore 100).map (fun st => st.name) = ["A", "B", "C"] := by
  refine ⟨?_, ?_, by decide⟩
  · exact (List.perm_insertionSort _ s.packages).map (packageStat now)
  · unfold listPackages
    have hs := @List.sorted_insertionSort Package (fun p q => rowLE now p q = true) _
      ⟨fun p q => rowLE_total now p q⟩ ⟨fun p q r => rowLE_trans now p q r⟩ s.packages
    rw [List.Sorted, List.pairwise_map]
    apply hs.imp
    intro a b hab
    unfold rowLE at hab
    unfold statLE
    by_cases hd : daysUnused now a.last_seen = daysUnused now b.last_seen
    · right
      exact ⟨hd, by rw [if_pos hd] at hab; exact hab⟩
    · left
      rw [if_neg hd] at hab
      exact of_decide_eq_true hab

/-- C8: the scan cycle always runs both phases — the correlate phase runs
even when reconcile failed and the reconcile effect is kept even when
correlate fails — and the reported success flag is true exactly when both
phase results are success. -/
theorem scan_cycle_independent_phases (s : Store) (inv : Option (List PkgInfo × List String))
    (procs : Option (List (Option String))) (now : ℤ) :
    ((runScanCycle s inv procs now).2 = true ↔
      (scanInstalledPackages s inv now).2 = true ∧
      (scanRunningProcesses (scanInstalledPackages s inv now).1 procs now).2 = true) ∧
    (runScanCycle s none procs now).1 = (scanRunningProcesses s procs now).1 ∧
    (runScanCycle s inv none now).1 = (scanInstalledPackages s inv now).1 := by
  refine ⟨?_, rfl, rfl⟩
  show ((scanInstalledPackages s inv now).2 &&
    (scanRunningProcesses (scanInstalledPackages s inv now).1 procs now).2) = true ↔ _
  exact Bool.and_eq_true_iff

end Dust
